import Mathlib

set_option maxHeartbeats 1000000
set_option linter.unusedVariables false
set_option allowUnsafeReducibility true

/- The Batteries rational arithmetic is shipped `@[irreducible]`; the
concrete-document evaluations below need it to reduce. -/
attribute [local semireducible] Rat.mul Rat.inv Rat.add Rat.sub

/-! Shallow embedding of the heading/title classification engine of
`extractor/robust_extractor.py`: exclusion filtering, structural pattern
detection, multi-factor confidence scoring, title selection and outline
assembly (dedup + ordering), together with proofs of the specified laws.

Text is modelled as `List Char`; Python floats (font sizes, coordinates)
are modelled as rationals; the per-document entry point models a raised
exception (the float division by a zero body font size) as `Except`. -/

abbrev Str := List Char

/-- Python whitespace class used by `str.strip`, `str.split` and `\s`. -/
def isSpaceC (c : Char) : Bool :=
  c = ' ' || c = '\t' || c = '\n' || c = '\r' || c = '\x0b' || c = '\x0c'

/-- Python `str.strip()`. -/
def stripL (s : Str) : Str :=
  ((s.dropWhile isSpaceC).reverse.dropWhile isSpaceC).reverse

/-- Python `str.lower()` (ASCII). -/
def lowerL (s : Str) : Str := s.map Char.toLower

/-- Python `\w` (ASCII): alphanumeric or underscore. -/
def isWordChar (c : Char) : Bool := c.isAlphanum || c = '_'

/-- Substring test: Python `pat in hay`. -/
def containsSub (p : Str) : Str → Bool
  | [] => p.isPrefixOf []
  | c :: t => p.isPrefixOf (c :: t) || containsSub p t

/-- Worker for `splitW`; `cur` is the current word, reversed. -/
def splitGo : Str → Str → List Str
  | [], cur => if cur = [] then [] else [cur.reverse]
  | c :: t, cur =>
    if isSpaceC c then
      (if cur = [] then splitGo t [] else cur.reverse :: splitGo t [])
    else splitGo t (c :: cur)

/-- Python `str.split()` with no argument: maximal non-whitespace runs. -/
def splitW (s : Str) : List Str := splitGo s []

/-- Worker for `collapseWs`; the flag records whether the previous
character was whitespace (already emitted as a single space). -/
def collapseGo : Bool → Str → Str
  | _, [] => []
  | inWs, c :: t =>
    if isSpaceC c then
      (if inWs then collapseGo true t else ' ' :: collapseGo true t)
    else c :: collapseGo false t

/-- Python `re.sub(r'\s+', ' ', s)`: each whitespace run becomes one space. -/
def collapseWs (s : Str) : Str := collapseGo false s

/-- Count of occurrences of `a` in `l` (`Counter` entry). -/
def countIn [DecidableEq α] (l : List α) (a : α) : Nat :=
  (l.filter (fun x => x = a)).length

/-- Worker for `firstUniq`: elements of the input in first-occurrence
order, skipping anything already in `seen`. -/
def firstUniqGo [DecidableEq α] (seen : List α) : List α → List α
  | [] => []
  | a :: t => if a ∈ seen then firstUniqGo seen t else a :: firstUniqGo (a :: seen) t

/-- Distinct elements in first-occurrence order (a `Counter`'s key order). -/
def firstUniq [DecidableEq α] (l : List α) : List α := firstUniqGo [] l

/-- Keep `best` unless a strictly more frequent candidate appears later:
the tie rule of `Counter.most_common` (first-encountered wins). -/
def pickMax [DecidableEq α] (l : List α) (best : α) : List α → α
  | [] => best
  | a :: t => if countIn l best < countIn l a then pickMax l a t else pickMax l best t

/-- `Counter(l).most_common(1)[0][0]`: the modal value, ties broken by
first occurrence; `dflt` is returned for an empty list (never consulted
by the extractor, which guards against empty span lists upstream). -/
def mostCommon [DecidableEq α] (l : List α) (dflt : α) : α :=
  match firstUniq l with
  | [] => dflt
  | c :: cs => pickMax l c cs

/-! ### Regex embeddings

Each regular expression of the source is embedded as an executable
character-list matcher with the same acceptance behaviour (Python `re`,
backtracking; `re.match` anchors at the start of the string only). -/

/-- The star loop of `(\.\d+)*`: consumes the maximal sequence of
`.digits` groups and returns the text of the LAST group consumed —
Python's `group(2)` holds only the last repetition — with the unconsumed
remainder.  `mode = none`: at a group boundary; `mode = some ds`: inside
a group begun by a dot, `ds` holding its digits in reverse. -/
def starGo : Str → Option Str → Option Str → Option Str × Str
  | [], last, none => (last, [])
  | [], last, some ds =>
    if ds = [] then (last, ['.']) else (some ('.' :: ds.reverse), [])
  | c :: t, last, none =>
    if c = '.' then starGo t last (some []) else (last, c :: t)
  | c :: t, last, some ds =>
    if c.isDigit then starGo t last (some (c :: ds))
    else if ds = [] then (last, '.' :: c :: t)
    else if c = '.' then starGo t (some ('.' :: ds.reverse)) (some [])
    else (some ('.' :: ds.reverse), c :: t)

/-- `(.+)$` with `re.DOTALL` off: one or more non-newline characters,
optionally followed by one final newline.  Returns the group. -/
def dotPlusEnd (rest : Str) : Option Str :=
  let a := rest.takeWhile (fun c => c ≠ '\n')
  let b := rest.dropWhile (fun c => c ≠ '\n')
  if a = [] then none
  else if b = [] ∨ b = ['\n'] then some a else none

/-- `\s+(.+)$`: mandatory whitespace, then the content group. -/
def wsContent (r : Str) : Option Str :=
  let w := r.takeWhile isSpaceC
  let rest := r.dropWhile isSpaceC
  if w = [] then none else dotPlusEnd rest

/-- `\.?\s+(.+)$`: optional dot (with backtracking), whitespace, content. -/
def optDotWs : Str → Option Str
  | '.' :: r2 => wsContent r2
  | r => wsContent r

/-- `re.match(r'^(\d+)(\.\d+)*\.?\s+(.+)$', ts)`: returns
`(group(2), group(3))` on a match. -/
def numberedMatchL (ts : Str) : Option (Option Str × Str) :=
  let d1 := ts.takeWhile Char.isDigit
  let r0 := ts.dropWhile Char.isDigit
  if d1 = [] then none
  else
    let g := starGo r0 none none
    match optDotWs g.2 with
    | some content => some (g.1, content)
    | none => none

/-- Pattern 1, numbered sections: the regex match plus the content
guards (`len(content) > 5`, content not itself only digits); yields the
heading level computed from `group(2)`. -/
def numberedRule (ts : Str) : Option Nat :=
  match numberedMatchL ts with
  | none => none
  | some (g2, c) =>
    let content := stripL c
    if 5 < content.length ∧ ¬(content.all Char.isDigit) then
      some (match g2 with
        | none => 1
        | some d => min (countIn d '.' + 1) 3)
    else none

/-- `re.match(r'^([A-Z])(\.\d+)*\.?\s+(.+)$', ts)` plus `len(content) > 5`. -/
def letterRule (ts : Str) : Bool :=
  match ts with
  | c :: r0 =>
    if c.isUpper then
      let g := starGo r0 none none
      match optDotWs g.2 with
      | some content => 5 < (stripL content).length
      | none => false
    else false
  | [] => false

/-- `re.match(r'^([IVX]+)\.?\s+(.+)$', ts)` plus `len(content) > 5`. -/
def romanRule (ts : Str) : Bool :=
  let d1 := ts.takeWhile (fun c => c = 'I' || c = 'V' || c = 'X')
  let r0 := ts.dropWhile (fun c => c = 'I' || c = 'V' || c = 'X')
  if d1 = [] then false
  else
    match optDotWs r0 with
    | some content => 5 < (stripL content).length
    | none => false

/-- `re.search(r'\d+:\d+', ts)`: a digit, a colon and a digit in a row. -/
def dcdSearch : Str → Bool
  | a :: b :: c :: t => (a.isDigit && b = ':' && c.isDigit) || dcdSearch (b :: c :: t)
  | _ => false

/-- Pattern 4, colon-terminated headings. -/
def colonRule (ts : Str) : Bool :=
  ts.getLast? = some ':' && 8 < ts.length && !dcdSearch ts
    && (ts.filter (fun c => c = ':')).length = 1

/-- Python `str.isupper()` (ASCII): at least one letter and no
lowercase letter. -/
def isUpperStr (ts : Str) : Bool :=
  ts.any Char.isAlpha && ts.all (fun c => !c.isAlpha || c.isUpper)

/-- `re.match(r'^[A-Z\s]+\d+[A-Z\s]*$', ts)`: uppercase/whitespace run,
one digit run, then uppercase/whitespace to the end. -/
def versionShape (ts : Str) : Bool :=
  let inCls := fun c => c.isUpper || isSpaceC c
  let u := ts.takeWhile inCls
  let r1 := ts.dropWhile inCls
  let d := r1.takeWhile Char.isDigit
  let v := r1.dropWhile Char.isDigit
  !(u = []) && !(d = []) && v.all inCls

/-- Pattern 5, selective all caps. -/
def allCapsRule (ts : Str) : Bool :=
  isUpperStr ts && 10 ≤ ts.length && ts.length ≤ 60 && !versionShape ts

/-- `detect_heading_patterns`: the five pattern rules in their fixed
priority order; the first matching rule returns `(True, level,
confidence)` and no confidences accumulate across rules. -/
def detect_heading_patterns (text : Str) : Bool × Nat × Int :=
  let ts := stripL text
  match numberedRule ts with
  | some lvl => (true, lvl, 90)
  | none =>
    if letterRule ts then (true, 1, 80)
    else if romanRule ts then (true, 1, 70)
    else if colonRule ts then (true, 2, 60)
    else if allCapsRule ts then (true, 1, 50)
    else (false, 0, 0)

/-! ### Exclusion filter -/

def kwCopyright : Str := "copyright".toList
def kwCopySym : Str := "©".toList
def kwAllRights : Str := "all rights reserved".toList
def kwConfidential : Str := "confidential".toList
def kwProprietary : Str := "proprietary".toList
def kwHttp : Str := "http://".toList
def kwHttps : Str := "https://".toList
def kwWww : Str := "www.".toList
def kwDotCom : Str := ".com".toList
def kwDotOrg : Str := ".org".toList
def kwDotNet : Str := ".net".toList

/-- `[\w\.-]` character class. -/
def isWdd (c : Char) : Bool := isWordChar c || c = '.' || c = '-'

/-- Scanner for the tail of `@[\w\.-]+\.\w+` after at least one class
character has been consumed: succeed at a dot followed by a word
character, otherwise keep consuming class characters. -/
def atDomainTail : Str → Bool
  | [] => false
  | c :: t =>
    (c = '.' && (match t with | d :: _ => isWordChar d | [] => false))
      || (isWdd c && atDomainTail t)

/-- `re.match(r'@[\w\.-]+\.\w+', tl)` viewed as a prefix test. -/
def atDomainHit : Str → Bool
  | '@' :: c :: t => isWdd c && atDomainTail t
  | _ => false

/-- First exclusion regex (copyright and legal markers), anchored at the
start by `re.match`. -/
def legalHit (tl : Str) : Bool :=
  kwCopyright.isPrefixOf tl || kwCopySym.isPrefixOf tl
    || kwAllRights.isPrefixOf tl || kwConfidential.isPrefixOf tl
    || kwProprietary.isPrefixOf tl

/-- Second exclusion regex (URL, email and domain markers), anchored at
the start by `re.match`. -/
def urlHit (tl : Str) : Bool :=
  kwHttp.isPrefixOf tl || kwHttps.isPrefixOf tl || kwWww.isPrefixOf tl
    || atDomainHit tl || kwDotCom.isPrefixOf tl || kwDotOrg.isPrefixOf tl
    || kwDotNet.isPrefixOf tl

/-- `re.match(r'^\d{1,2}[\/\-]\d{1,2}[\/\-]\d{2,4}$', tl)`: a bare date
token occupying the whole string. -/
def dateShape (tl : Str) : Bool :=
  let d1 := tl.takeWhile Char.isDigit
  let r1 := tl.dropWhile Char.isDigit
  (1 ≤ d1.length && d1.length ≤ 2) &&
    match r1 with
    | s1 :: r2 =>
      (s1 = '/' || s1 = '-') &&
        (let d2 := r2.takeWhile Char.isDigit
         let r3 := r2.dropWhile Char.isDigit
         (1 ≤ d2.length && d2.length ≤ 2) &&
           match r3 with
           | s2 :: r4 =>
             (s2 = '/' || s2 = '-') &&
               (let d3 := r4.takeWhile Char.isDigit
                let r5 := r4.dropWhile Char.isDigit
                (2 ≤ d3.length && d3.length ≤ 4) && r5 = [])
           | [] => false)
    | [] => false

/-- `is_excluded_content`: hard veto on length bounds and on the three
exclusion regexes, each applied by `re.match` to the lowercased trimmed
text (the `page` argument is unused in the source as well). -/
def is_excluded_content (text : Str) (page : Nat) : Bool :=
  let tc := stripL text
  let tl := lowerL tc
  if tc.length < 3 ∨ 150 < tc.length then true
  else legalHit tl || urlHit tl || dateShape tl

/-! ### Data model -/

structure Block where
  text : Str
  font_size : ℚ
  font_name : Str
  is_bold : Bool
  x_position : ℚ
  y_position : ℚ
  page : Nat
deriving DecidableEq, Repr

structure FontAnalysis where
  body_font_size : ℚ
  body_font_name : Str
deriving DecidableEq, Repr

structure Heading where
  text : Str
  page : Nat
  level : Option Str
  confidence : Int
  font_size : ℚ
deriving DecidableEq, Repr

structure OutlineResult where
  title : Str
  outline : List Heading
  page_count : Option Nat
deriving DecidableEq, Repr

/-- `analyze_fonts`, restricted to the two fields the classification
path reads (`body_font_size` and `body_font_name`, the modal size and
name with the first-encountered tie rule); the percentile and
distribution fields of the source are never consulted downstream and
are omitted. -/
def analyze_fonts (blocks : List Block) : FontAnalysis :=
  { body_font_size := mostCommon (blocks.map (fun b => b.font_size)) 0
    body_font_name := mostCommon (blocks.map (fun b => b.font_name)) [] }

/-! ### Confidence scorer -/

def penaltyWordsL : List Str :=
  List.map String.toList ["copyright", "©", "page", "version"]

def monthsL : List Str :=
  List.map String.toList
    ["jan", "feb", "mar", "apr", "may", "jun", "jul", "aug", "sep", "oct",
     "nov", "dec", "january", "february", "march", "april", "may", "june",
     "july", "august", "september", "october", "november", "december"]

def auxWordsL : List Str :=
  List.map String.toList
    ["who", "that", "which", "are", "have", "will", "can", "may", "should"]

def chapWordsL : List Str :=
  List.map String.toList ["chapter", "section", "part", "appendix"]

def structWordsL : List Str :=
  List.map String.toList
    ["table of contents", "acknowledgements", "references", "introduction",
     "conclusion", "overview"]

/-- Tail of the month-date regex after the month name: `\s+\d{4}`. -/
def mdRest2 (t : Str) : Bool :=
  let w := t.takeWhile isSpaceC
  let r := t.dropWhile isSpaceC
  !(w = []) &&
    match r with
    | a :: b :: c :: d :: _ => a.isDigit && b.isDigit && c.isDigit && d.isDigit
    | _ => false

/-- Month-name alternation followed by `\s+\d{4}`. -/
def monthAfter (t : Str) : Bool :=
  monthsL.any (fun m => m.isPrefixOf t && mdRest2 (t.drop m.length))

/-- `\s+(month...)\s+\d{4}` after the day digits. -/
def mdAfterDigits (t : Str) : Bool :=
  let w := t.takeWhile isSpaceC
  let r := t.dropWhile isSpaceC
  !(w = []) && monthAfter r

/-- The month-date regex tried at the current position (`\d{1,2}` with
its two backtracking alternatives). -/
def mdHere (cs : Str) : Bool :=
  (match cs with
   | a :: b :: t => a.isDigit && b.isDigit && mdAfterDigits t
   | _ => false) ||
  (match cs with
   | a :: t => a.isDigit && mdAfterDigits t
   | _ => false)

/-- `re.search` of the month-name date pattern
`\d{1,2}\s+(jan|...|december)\s+\d{4}` over the lowercased text. -/
def monthDateSearch : Str → Bool
  | [] => false
  | c :: t => mdHere (c :: t) || monthDateSearch t

/-- `\s+(who|that|...)` tried at the current position. -/
def wsThenAux (r : Str) : Bool :=
  let w := r.takeWhile isSpaceC
  let t := r.dropWhile isSpaceC
  !(w = []) && auxWordsL.any (fun m => m.isPrefixOf t)

/-- Scan for `\s+(who|...)` reachable through the `.*` part (which
cannot cross a newline; the `\s+` part can). -/
def scanA : Str → Bool
  | [] => false
  | c :: t => wsThenAux (c :: t) || (!(c = '\n') && scanA t)

/-- `re.match(r'^\d+\.\s+\w+.*\s+(who|that|which|are|have|will|can|may|should)', tl)`:
the numbered-list-item penalty pattern. -/
def listAuxMatch (tl : Str) : Bool :=
  let d := tl.takeWhile Char.isDigit
  let r := tl.dropWhile Char.isDigit
  !(d = []) &&
    match r with
    | '.' :: r2 =>
      let w := r2.takeWhile isSpaceC
      let r3 := r2.dropWhile isSpaceC
      !(w = []) &&
        match r3 with
        | c :: r4 => isWordChar c && scanA r4
        | [] => false
    | _ => false

/-- `re.search(r'^(chapter|section|part|appendix)\s+', tl)`: one of the
structure lead-ins at the start, followed by whitespace. -/
def chapterLead (tl : Str) : Bool :=
  chapWordsL.any (fun m =>
    m.isPrefixOf tl &&
      match tl.drop m.length with
      | c :: _ => isSpaceC c
      | [] => false)

/-- `{1: "H1", 2: "H2", 3: "H3"}.get(lvl, "H3")`. -/
def levelName (lvl : Nat) : Str :=
  if lvl = 1 then "H1".toList else if lvl = 2 then "H2".toList else "H3".toList

/-- `calculate_heading_likelihood`: the additive multi-signal scorer.
The base exclusion veto is checked first (returning `(False, None, 0)`),
then the font-size ratio is taken — a zero body font size raises
`ZeroDivisionError` in Python, modelled as `.error ()`. -/
def calculate_heading_likelihood (allBlocks : List Block) (fa : FontAnalysis)
    (block : Block) : Except Unit (Bool × Option Str × Int) :=
  let text := block.text
  if is_excluded_content text block.page then .ok (false, none, 0)
  else if fa.body_font_size = 0 then .error ()
  else
    let det := detect_heading_patterns text
    let hasPat := det.1
    let t1 : Int := if hasPat then det.2.2 else 0
    let l1 : Nat := if hasPat then det.2.1 else 3
    let ratio : ℚ := block.font_size / fa.body_font_size
    let s :=
      if 3/2 ≤ ratio then
        (t1 + 60, if 2 ≤ ratio then min l1 1 else if 9/5 ≤ ratio then min l1 2 else l1)
      else if 6/5 ≤ ratio then (t1 + 30, min l1 3)
      else (t1, l1)
    let t3 := if block.is_bold then s.1 + 25 else s.1
    let l3 := if block.is_bold then max 1 (s.2 - 1) else s.2
    let t4 := if block.font_name ≠ fa.body_font_name then t3 + 15 else t3
    let t5 := if block.x_position < 100 then t4 + 10 else t4
    let tl := lowerL text
    let t6 := if penaltyWordsL.any (fun w => containsSub w tl) then t5 - 40 else t5
    let t7 := if monthDateSearch tl then t6 - 80 else t6
    let t8 := if 12 < (splitW text).length ∧ hasPat = false then t7 - 30 else t7
    let t9 := if listAuxMatch tl then t8 - 50 else t8
    let t10 := if chapterLead tl then t9 + 30 else t9
    let t11 :=
      if structWordsL.any (fun w => containsSub w tl) then
        let occurrences :=
          (allBlocks.filter (fun b => stripL (lowerL b.text) = stripL (lowerL text))).length
        if occurrences ≤ 2 then t10 + 20 else t10
      else t10
    .ok (decide (80 ≤ t11), some (levelName l3), t11)

/-! ### Title selector -/

def kwUntitled : Str := "Untitled Document".toList
def kwDocument : Str := "Document".toList
def kwEmptyDoc : Str := "Empty Document".toList
def kwError : Str := "Error".toList
def kwVersion : Str := "version".toList
def kwEllipsis : Str := "...".toList

def genericTitlesL : List Str :=
  List.map String.toList ["overview", "introduction", "document", "foundation level"]

/-- `re.match(r'^\d+\.', t)`: a nonempty digit run followed by a dot. -/
def numLead (t : Str) : Bool :=
  !(t.takeWhile Char.isDigit = []) &&
    match t.dropWhile Char.isDigit with
    | '.' :: _ => true
    | _ => false

/-- `re.match(r'^version\s+', tl)`. -/
def versionLead (tl : Str) : Bool :=
  kwVersion.isPrefixOf tl &&
    match tl.drop kwVersion.length with
    | c :: _ => isSpaceC c
    | [] => false

/-- Strict order of the title sort key `(-font_size, y_position)`. -/
def ltTitleB (a b : Block) : Bool :=
  decide (b.font_size < a.font_size)
    || (decide (a.font_size = b.font_size) && decide (a.y_position < b.y_position))

/-- Stable insertion for `isortT` (a later element goes after equals). -/
def insT (a : Block) : List Block → List Block
  | [] => [a]
  | b :: t => if ltTitleB b a then b :: insT a t else a :: b :: t

/-- Stable sort by `(-font_size, y_position)` (Python `list.sort`). -/
def isortT : List Block → List Block
  | [] => []
  | a :: t => insT a (isortT t)

/-- Final cleanup of a chosen title: collapse internal whitespace and
truncate to 100 characters with an ellipsis marker. -/
def normTitle (t : Str) : Str :=
  let t' := collapseWs t
  if 100 < t'.length then t'.take 100 ++ kwEllipsis else t'

/-- The primary title-candidate filter over first-page blocks. -/
def titleCand (b : Block) : Bool :=
  let t := stripL b.text
  decide (5 < t.length) && !is_excluded_content t 1 && !numLead t
    && !versionLead (lowerL t) && decide (b.y_position < 300)

/-- The fallback scan: first substantial page-1 text that does not start
with "copyright" or a digit. -/
def titleFallback (b : Block) : Bool :=
  let t := stripL b.text
  decide (10 < t.length) && !(kwCopyright.isPrefixOf (lowerL t))
    && !(match t with | c :: _ => c.isDigit | [] => false)

/-- The preference test over the top three sorted candidates: at least
two words and not a generic stoplist title. -/
def titlePrefer (b : Block) : Bool :=
  let t := stripL b.text
  decide (2 ≤ (splitW t).length) && !(genericTitlesL.contains (lowerL t))

/-- `extract_title`: candidate filter, fallback scan, sort by
`(-font_size, y)`, preference pass over the top three, final fallback to
the best candidate.  The `[] => kwDocument` arm of the sorted match is
unreachable (the candidate list is checked nonempty first). -/
def extract_title (blocks : List Block) : Str :=
  let fp := blocks.filter (fun b => b.page = 1)
  if fp = [] then kwUntitled
  else
    let cands := fp.filter titleCand
    if cands = [] then
      match fp.find? titleFallback with
      | some b => stripL b.text
      | none => kwDocument
    else
      match isortT cands with
      | [] => kwDocument
      | c0 :: cs =>
        match ((c0 :: cs).take 3).find? titlePrefer with
        | some c => normTitle (stripL c.text)
        | none => normTitle (stripL c0.text)

/-! ### Outline assembler -/

/-- Dedup key of a produced heading: `(text.lower(), page)` (the text is
already trimmed when the heading is built). -/
def hKey (h : Heading) : Str × Nat := (lowerL h.text, h.page)

/-- Dedup key of a raw span: `(text.strip().lower(), page)`. -/
def bKey (b : Block) : Str × Nat := (lowerL (stripL b.text), b.page)

/-- The accepted-heading loop of `extract_outline`: spans in document
order; a span is skipped when its trimmed text is empty or its key was
already accepted; otherwise it is scored and, on acceptance, appended
with its key recorded.  An arithmetic error in the scorer aborts the
document (Python exception propagation). -/
def scanB (allB : List Block) (fa : FontAnalysis) :
    List Block → List Heading → List (Str × Nat) → Except Unit (List Heading × List (Str × Nat))
  | [], hs, seen => .ok (hs, seen)
  | b :: t, hs, seen =>
    let tc := stripL b.text
    if tc = [] ∨ (lowerL tc, b.page) ∈ seen then scanB allB fa t hs seen
    else
      match calculate_heading_likelihood allB fa b with
      | .error e => .error e
      | .ok (isH, lvl, conf) =>
        if isH then
          scanB allB fa t (hs ++ [⟨tc, b.page, lvl, conf, b.font_size⟩])
            (seen ++ [(lowerL tc, b.page)])
        else scanB allB fa t hs seen

/-- First-match lookup in an association list (the dict lookup). -/
def findPos (k : Str × Nat) : List ((Str × Nat) × ℚ) → Option ℚ
  | [] => none
  | (k', y) :: t => if k' = k then some y else findPos k t

/-- The `heading_positions` dict: the source records the y-position only
for a key's first occurrence among all spans; a dict with first-wins
insertion has the same lookup function as this association list of all
occurrences queried by first match. -/
def firstPos : List Block → List ((Str × Nat) × ℚ)
  | [] => []
  | b :: t => (bKey b, b.y_position) :: firstPos t

/-- The y-position the assembler records for a heading:
`heading_positions.get(key, 0)`. -/
def yRec (pos : List ((Str × Nat) × ℚ)) (h : Heading) : ℚ :=
  (findPos (hKey h) pos).getD 0

/-- Strict order of the outline sort key `(page, y)`. -/
def ltHeadB (pos : List ((Str × Nat) × ℚ)) (a b : Heading) : Bool :=
  decide (a.page < b.page)
    || (decide (a.page = b.page) && decide (yRec pos a < yRec pos b))

/-- Stable insertion for `isortH`. -/
def insH (pos : List ((Str × Nat) × ℚ)) (a : Heading) : List Heading → List Heading
  | [] => [a]
  | b :: t => if ltHeadB pos b a then b :: insH pos a t else a :: b :: t

/-- Stable sort of the accepted headings by `(page, recorded y)`. -/
def isortH (pos : List ((Str × Nat) × ℚ)) : List Heading → List Heading
  | [] => []
  | a :: t => insH pos a (isortH pos t)

/-- `extract_outline` over the extracted span list and the document's
page count: empty-input sentinel, font profile, title, accepted-heading
loop, then the `(page, first-occurrence y)` sort. -/
def extract_outline (blocks : List Block) (page_count : Nat) :
    Except Unit OutlineResult :=
  if blocks = [] then .ok ⟨kwEmptyDoc, [], some page_count⟩
  else
    let fa := analyze_fonts blocks
    let title := extract_title blocks
    match scanB blocks fa blocks [] [] with
    | .error e => .error e
    | .ok (hs, _) => .ok ⟨title, isortH (firstPos blocks) hs, some page_count⟩

/-- The sentinel returned for any internal error: `{"title": "Error",
"outline": []}` (no metadata key). -/
def errResult : OutlineResult := ⟨kwError, [], none⟩

/-- `extract_pdf_outline`: the document-level boundary that catches any
internal error and converts it to the sentinel result. -/
def extract_pdf_outline (blocks : List Block) (page_count : Nat) : OutlineResult :=
  match extract_outline blocks page_count with
  | .ok r => r
  | .error _ => errResult

/-! ### Specification-level predicates -/

/-- A span the accepted-heading loop passes over without accepting:
its trimmed text is empty, or the scorer returns `False`. -/
def RawRejected (allB : List Block) (fa : FontAnalysis) (b : Block) : Prop :=
  stripL b.text = [] ∨
    ∃ lvl conf, calculate_heading_likelihood allB fa b = .ok (false, lvl, conf)

/-- Heading `h` is exactly the entry the loop builds from span `b`. -/
def AcceptedAs (allB : List Block) (fa : FontAnalysis) (b : Block) (h : Heading) : Prop :=
  stripL b.text ≠ [] ∧
    calculate_heading_likelihood allB fa b = .ok (true, h.level, h.confidence) ∧
    h.text = stripL b.text ∧ h.page = b.page ∧ h.font_size = b.font_size

/-- Heading `h` comes from the first accepted span of its key within the
processed span list `P`: every earlier span with the same key was
passed over without being accepted. -/
def FirstAcceptedIn (allB : List Block) (fa : FontAnalysis) (P : List Block)
    (h : Heading) : Prop :=
  ∃ l b r, P = l ++ b :: r ∧ AcceptedAs allB fa b h ∧
    ∀ b' ∈ l, bKey b' = bKey b → RawRejected allB fa b'

/-- Claim-level form of the dedup/first-wins property for a document. -/
def FirstAccepted (blocks : List Block) (h : Heading) : Prop :=
  FirstAcceptedIn blocks (analyze_fonts blocks) blocks h

/-- The ordering law's relation: page ascending, then recorded
y-position ascending within a page. -/
def hLE (pos : List ((Str × Nat) × ℚ)) (a b : Heading) : Prop :=
  a.page < b.page ∨ (a.page = b.page ∧ yRec pos a ≤ yRec pos b)

/-- `y` is the y-position of the first span of `blocks` carrying key `k`. -/
def FirstOcc (blocks : List Block) (k : Str × Nat) (y : ℚ) : Prop :=
  ∃ l b r, blocks = l ++ b :: r ∧ bKey b = k ∧ b.y_position = y ∧
    ∀ b' ∈ l, bKey b' ≠ k

/-- The marker alternatives of the two anchored exclusion regexes that
are literal strings (the `@domain` branch is a non-literal pattern). -/
def markerList : List Str :=
  [kwCopyright, kwCopySym, kwAllRights, kwConfidential, kwProprietary,
   kwHttp, kwHttps, kwWww, kwDotCom, kwDotOrg, kwDotNet]

/-! ### Concrete documents used by witnesses and counterexamples -/

/-- One-span document whose span is accepted as an H1 heading. -/
def blkW : Block := ⟨"1.2 System Overview".toList, 14, "F".toList, true, 100, 7, 1⟩

/-- The outline produced for `[blkW]` (page count 2). -/
def resW : OutlineResult :=
  ⟨kwDocument, [⟨"1.2 System Overview".toList, 1, some ("H1".toList), 135, 14⟩], some 2⟩

/-- Two-page document, pages out of order in span order. -/
def blkO1 : Block := ⟨"A Tale of Headings".toList, 14, "F".toList, true, 100, 3, 2⟩
def blkO2 : Block := ⟨"1.2 System Overview".toList, 14, "F".toList, true, 100, 7, 1⟩

/-- The outline produced for `[blkO1, blkO2]` (page count 3): sorted by
page even though the page-2 span came first. -/
def resO : OutlineResult :=
  ⟨kwDocument,
   [⟨"1.2 System Overview".toList, 1, some ("H1".toList), 135, 14⟩,
    ⟨"A Tale of Headings".toList, 2, some ("H1".toList), 105, 14⟩],
   some 3⟩

/-- A month-name date span rendered large, bold, in a non-body font at
the left margin. -/
def blkDate : Block := ⟨"15 March 2023".toList, 20, "G".toList, true, 0, 0, 1⟩
def faDate : FontAnalysis := ⟨10, "F".toList⟩

/-- A month-name date span with no size/bold/font/position bonuses. -/
def blkDatePlain : Block := ⟨"15 March 2023".toList, 10, "F".toList, false, 100, 0, 1⟩

/-- The numbered-heading scenario span of the specification. -/
def blk9 : Block := ⟨"1.2 System Overview".toList, 14, "F".toList, true, 100, 0, 1⟩
def fa9 : FontAnalysis := ⟨10, "F".toList⟩

/-- A document whose only span has font size zero: the body font size is
then zero and the scorer's size-ratio division raises. -/
def zeroFontBlocks : List Block :=
  [⟨"Introduction to Things".toList, 0, "F".toList, false, 0, 0, 1⟩]

/-- A page-2-only document for the missing-first-page title case. -/
def blkP2 : Block := ⟨"Hello there".toList, 10, "F".toList, false, 0, 0, 2⟩

/-! ### Properties of the stable insertion sort on headings -/

theorem hLE_of_ltHeadB {pos : List ((Str × Nat) × ℚ)} {a b : Heading}
    (h : ltHeadB pos a b = true) : hLE pos a b := by
  simp only [ltHeadB, Bool.or_eq_true, Bool.and_eq_true, decide_eq_true_eq] at h
  rcases h with h | ⟨h1, h2⟩
  · exact Or.inl h
  · exact Or.inr ⟨h1, le_of_lt h2⟩

theorem hLE_of_not_ltHeadB {pos : List ((Str × Nat) × ℚ)} {a b : Heading}
    (h : ltHeadB pos b a = false) : hLE pos a b := by
  have h1 : ¬ (b.page < a.page) := by
    intro hh; simp [ltHeadB, hh] at h
  by_cases hp : a.page = b.page
  · have h2 : ¬ (yRec pos b < yRec pos a) := by
      intro hh; simp [ltHeadB, hp.symm, hh] at h
    exact Or.inr ⟨hp, not_lt.mp h2⟩
  · exact Or.inl (lt_of_le_of_ne (not_lt.mp h1) hp)

theorem hLE_trans {pos : List ((Str × Nat) × ℚ)} {a b c : Heading}
    (h1 : hLE pos a b) (h2 : hLE pos b c) : hLE pos a c := by
  rcases h1 with h1 | ⟨e1, y1⟩ <;> rcases h2 with h2 | ⟨e2, y2⟩
  · exact Or.inl (h1.trans h2)
  · exact Or.inl (by rw [← e2]; exact h1)
  · exact Or.inl (by rw [e1]; exact h2)
  · exact Or.inr ⟨e1.trans e2, y1.trans y2⟩

theorem insH_perm (pos : List ((Str × Nat) × ℚ)) (a : Heading) (l : List Heading) :
    List.Perm (insH pos a l) (a :: l) := by
  induction l with
  | nil => exact List.Perm.refl _
  | cons b t ih =>
    simp only [insH]
    by_cases h : ltHeadB pos b a = true
    · rw [if_pos h]
      exact (ih.cons b).trans (List.Perm.swap a b t)
    · rw [if_neg h]

theorem insH_pairwise (pos : List ((Str × Nat) × ℚ)) (a : Heading) (l : List Heading)
    (hl : List.Pairwise (hLE pos) l) : List.Pairwise (hLE pos) (insH pos a l) := by
  induction l with
  | nil => simp [insH]
  | cons b t ih =>
    rw [List.pairwise_cons] at hl
    obtain ⟨hb, ht⟩ := hl
    simp only [insH]
    cases h : ltHeadB pos b a with
    | true =>
      rw [if_pos rfl]
      rw [List.pairwise_cons]
      refine ⟨fun x hx => ?_, ih ht⟩
      rcases List.mem_cons.mp ((insH_perm pos a t).mem_iff.mp hx) with rfl | hx
      · exact hLE_of_ltHeadB h
      · exact hb x hx
    | false =>
      rw [if_neg Bool.false_ne_true]
      rw [List.pairwise_cons]
      refine ⟨fun x hx => ?_, List.pairwise_cons.mpr ⟨hb, ht⟩⟩
      rcases List.mem_cons.mp hx with rfl | hx
      · exact hLE_of_not_ltHeadB h
      · exact hLE_trans (hLE_of_not_ltHeadB h) (hb x hx)

theorem isortH_perm (pos : List ((Str × Nat) × ℚ)) (l : List Heading) :
    List.Perm (isortH pos l) l := by
  induction l with
  | nil => exact List.Perm.refl _
  | cons a t ih =>
    exact (insH_perm pos a (isortH pos t)).trans (ih.cons a)

theorem isortH_pairwise (pos : List ((Str × Nat) × ℚ)) (l : List Heading) :
    List.Pairwise (hLE pos) (isortH pos l) := by
  induction l with
  | nil => simp [isortH]
  | cons a t ih => exact insH_pairwise pos a (isortH pos t) ih

/-! ### Properties of the first-occurrence position table -/

theorem findPos_firstPos_some (blocks : List Block) (k : Str × Nat) (y : ℚ)
    (h : findPos k (firstPos blocks) = some y) : FirstOcc blocks k y := by
  induction blocks with
  | nil => simp [firstPos, findPos] at h
  | cons b t ih =>
    simp only [firstPos, findPos] at h
    by_cases hk : bKey b = k
    · rw [if_pos hk] at h
      have hy : b.y_position = y := by injection h
      exact ⟨[], b, t, rfl, hk, hy, by simp⟩
    · rw [if_neg hk] at h
      obtain ⟨l, b0, r, ht, hb0, hy, hall⟩ := ih h
      refine ⟨b :: l, b0, r, by simp [ht], hb0, hy, fun b' hb' => ?_⟩
      rcases List.mem_cons.mp hb' with rfl | hb'
      · exact hk
      · exact hall b' hb'

theorem findPos_firstPos_mem (blocks : List Block) (k : Str × Nat)
    (h : ∃ b ∈ blocks, bKey b = k) : ∃ y, findPos k (firstPos blocks) = some y := by
  induction blocks with
  | nil => simp at h
  | cons b t ih =>
    simp only [firstPos, findPos]
    by_cases hk : bKey b = k
    · exact ⟨b.y_position, by rw [if_pos hk]⟩
    · obtain ⟨b0, hb0, hkey⟩ := h
      rcases List.mem_cons.mp hb0 with rfl | hb0
      · exact absurd hkey hk
      · obtain ⟨y, hy⟩ := ih ⟨b0, hb0, hkey⟩
        exact ⟨y, by rw [if_neg hk]; exact hy⟩

/-- Spans grow only on the right of a processed prefix. -/
theorem FirstAcceptedIn_append {allB : List Block} {fa : FontAnalysis}
    {P : List Block} {h : Heading} (Q : List Block)
    (hP : FirstAcceptedIn allB fa P h) : FirstAcceptedIn allB fa (P ++ Q) h := by
  obtain ⟨l, b, r, rfl, hacc, hall⟩ := hP
  exact ⟨l, b, r ++ Q, by simp, hacc, hall⟩

/-- Invariant of the accepted-heading loop: processing `rest` after a
processed prefix `pre` preserves (1) the seen-key set being exactly the
keys of the accepted headings, (2) pairwise-distinct keys, (3) every
accepted heading coming from the first accepted span of its key, and
(4) every processed span whose key was never accepted having been
passed over without acceptance. -/
theorem scanB_ok (allB : List Block) (fa : FontAnalysis) :
    ∀ (rest pre : List Block) (hs : List Heading) (seen : List (Str × Nat))
      (out : List Heading × List (Str × Nat)),
      scanB allB fa rest hs seen = .ok out →
      (∀ k, k ∈ seen ↔ ∃ h ∈ hs, hKey h = k) →
      List.Pairwise (fun a b => hKey a ≠ hKey b) hs →
      (∀ h ∈ hs, FirstAcceptedIn allB fa pre h) →
      (∀ b' ∈ pre, bKey b' ∉ seen → RawRejected allB fa b') →
      (∀ k, k ∈ out.2 ↔ ∃ h ∈ out.1, hKey h = k) ∧
        List.Pairwise (fun a b => hKey a ≠ hKey b) out.1 ∧
        (∀ h ∈ out.1, FirstAcceptedIn allB fa (pre ++ rest) h) ∧
        (∀ b' ∈ pre ++ rest, bKey b' ∉ out.2 → RawRejected allB fa b') := by
  intro rest
  induction rest with
  | nil =>
    intro pre hs seen out hok h1 h2 h3 h4
    simp only [scanB] at hok
    cases hok
    simp only [List.append_nil]
    exact ⟨h1, h2, h3, h4⟩
  | cons b t ih =>
    intro pre hs seen out hok h1 h2 h3 h4
    simp only [scanB] at hok
    by_cases hskip : stripL b.text = [] ∨ (lowerL (stripL b.text), b.page) ∈ seen
    · rw [if_pos hskip] at hok
      have h3' : ∀ h ∈ hs, FirstAcceptedIn allB fa (pre ++ [b]) h :=
        fun h hh => FirstAcceptedIn_append [b] (h3 h hh)
      have h4' : ∀ b' ∈ pre ++ [b], bKey b' ∉ seen → RawRejected allB fa b' := by
        intro b' hb' hnotin
        rcases List.mem_append.mp hb' with hb' | hb'
        · exact h4 b' hb' hnotin
        · have hbb : b' = b := by simpa using hb'
          subst hbb
          rcases hskip with he | hin
          · exact Or.inl he
          · exact absurd hin hnotin
      have hres := ih (pre ++ [b]) hs seen out hok h1 h2 h3' h4'
      simpa only [List.append_assoc, List.singleton_append] using hres
    · rw [if_neg hskip] at hok
      have htc : stripL b.text ≠ [] := fun he => hskip (Or.inl he)
      have hkeyn : (lowerL (stripL b.text), b.page) ∉ seen :=
        fun hin => hskip (Or.inr hin)
      rcases hc : calculate_heading_likelihood allB fa b with e | ⟨isH, lvl, conf⟩
      · rw [hc] at hok
        exact absurd hok (by simp)
      · rw [hc] at hok
        cases isH with
        | false =>
          simp only [Bool.false_eq_true, if_false] at hok
          have h3' : ∀ h ∈ hs, FirstAcceptedIn allB fa (pre ++ [b]) h :=
            fun h hh => FirstAcceptedIn_append [b] (h3 h hh)
          have h4' : ∀ b' ∈ pre ++ [b], bKey b' ∉ seen → RawRejected allB fa b' := by
            intro b' hb' hnotin
            rcases List.mem_append.mp hb' with hb' | hb'
            · exact h4 b' hb' hnotin
            · have hbb : b' = b := by simpa using hb'
              subst hbb
              exact Or.inr ⟨lvl, conf, hc⟩
          have hres := ih (pre ++ [b]) hs seen out hok h1 h2 h3' h4'
          simpa only [List.append_assoc, List.singleton_append] using hres
        | true =>
          simp only [if_pos rfl] at hok
          have hnew_fresh : ∀ h0 ∈ hs, hKey h0 ≠ (lowerL (stripL b.text), b.page) := by
            intro h0 hh0 he
            exact hkeyn ((h1 _).mpr ⟨h0, hh0, he⟩)
          have h1' : ∀ k, k ∈ seen ++ [(lowerL (stripL b.text), b.page)] ↔
              ∃ h ∈ hs ++ [(⟨stripL b.text, b.page, lvl, conf, b.font_size⟩ : Heading)],
                hKey h = k := by
            intro k
            constructor
            · intro hk
              rcases List.mem_append.mp hk with hk | hk
              · obtain ⟨h0, hh0, he0⟩ := (h1 k).mp hk
                exact ⟨h0, List.mem_append_left _ hh0, he0⟩
              · have hkk : k = (lowerL (stripL b.text), b.page) := by simpa using hk
                subst hkk
                exact ⟨⟨stripL b.text, b.page, lvl, conf, b.font_size⟩,
                  List.mem_append_right _ (by simp), rfl⟩
            · rintro ⟨h0, hh0, he0⟩
              rcases List.mem_append.mp hh0 with hh0 | hh0
              · exact List.mem_append_left _ ((h1 k).mpr ⟨h0, hh0, he0⟩)
              · have hh : h0 = ⟨stripL b.text, b.page, lvl, conf, b.font_size⟩ := by
                  simpa using hh0
                subst hh
                exact List.mem_append_right _ (by rw [← he0]; simp [hKey])
          have h2' : List.Pairwise (fun a b => hKey a ≠ hKey b)
              (hs ++ [(⟨stripL b.text, b.page, lvl, conf, b.font_size⟩ : Heading)]) := by
            rw [List.pairwise_append]
            refine ⟨h2, by simp, ?_⟩
            intro a ha c hcm
            have hcb : c = ⟨stripL b.text, b.page, lvl, conf, b.font_size⟩ := by
              simpa using hcm
            subst hcb
            exact hnew_fresh a ha
          have h3' : ∀ h0 ∈ hs ++ [(⟨stripL b.text, b.page, lvl, conf, b.font_size⟩ : Heading)],
              FirstAcceptedIn allB fa (pre ++ [b]) h0 := by
            intro h0 hh0
            rcases List.mem_append.mp hh0 with hh0 | hh0
            · exact FirstAcceptedIn_append [b] (h3 h0 hh0)
            · have hh : h0 = ⟨stripL b.text, b.page, lvl, conf, b.font_size⟩ := by
                simpa using hh0
              subst hh
              refine ⟨pre, b, [], rfl, ⟨htc, hc, rfl, rfl, rfl⟩, fun b' hb' hkeq => ?_⟩
              refine h4 b' hb' (fun hin => hkeyn ?_)
              rw [hkeq] at hin
              simpa [bKey] using hin
          have h4' : ∀ b' ∈ pre ++ [b],
              bKey b' ∉ seen ++ [(lowerL (stripL b.text), b.page)] →
              RawRejected allB fa b' := by
            intro b' hb' hnot
            rcases List.mem_append.mp hb' with hb' | hb'
            · exact h4 b' hb' (fun hin => hnot (List.mem_append_left _ hin))
            · have hbb : b' = b := by simpa using hb'
              subst hbb
              exact absurd (List.mem_append_right _ (by simp [bKey])) hnot
          have hres := ih (pre ++ [b]) _ _ out hok h1' h2' h3' h4'
          simpa only [List.append_assoc, List.singleton_append] using hres

/-! ### Claim theorems -/

/-- Claim C2: in every `OutlineResult` produced by `extract_outline`, no
two entries share the same (lowercased trimmed text, page) pair, and
when several spans carry the same pair the entry kept is built from the
first accepted occurrence in document order (every earlier span with the
same key was passed over unaccepted). -/
theorem extract_outline_dedup_first (blocks : List Block) (pc : Nat)
    (r : OutlineResult) (hok : extract_outline blocks pc = .ok r) :
    List.Pairwise (fun a b => hKey a ≠ hKey b) r.outline ∧
    ∀ h ∈ r.outline, FirstAccepted blocks h := by
  by_cases hb : blocks = []
  · subst hb
    simp only [extract_outline, if_pos rfl] at hok
    cases hok
    simp
  · simp only [extract_outline, if_neg hb] at hok
    rcases hscan : scanB blocks (analyze_fonts blocks) blocks [] [] with e | ⟨hs, seen⟩
    · rw [hscan] at hok
      exact absurd hok (by simp)
    · rw [hscan] at hok
      cases hok
      have hinv := scanB_ok blocks (analyze_fonts blocks) blocks [] [] [] (hs, seen) hscan
        (by simp) (by simp) (by simp) (by simp)
      simp only [List.nil_append] at hinv
      obtain ⟨hseen, hpw, hfa, hrej⟩ := hinv
      constructor
      · exact ((isortH_perm (firstPos blocks) hs).pairwise_iff
          (by intro x y hxy e; exact hxy e.symm)).mpr hpw
      · intro h hh
        exact hfa h ((isortH_perm (firstPos blocks) hs).mem_iff.mp hh)

/-- Claim C3: every produced outline is ordered by page ascending and,
within a page, by ascending recorded y-position, where the recorded
y-position of an entry is that of the first occurrence of its key among
all spans (not just accepted ones). -/
theorem extract_outline_ordering (blocks : List Block) (pc : Nat)
    (r : OutlineResult) (hok : extract_outline blocks pc = .ok r) :
    List.Pairwise (hLE (firstPos blocks)) r.outline ∧
    ∀ h ∈ r.outline, FirstOcc blocks (hKey h) (yRec (firstPos blocks) h) := by
  by_cases hb : blocks = []
  · subst hb
    simp only [extract_outline, if_pos rfl] at hok
    cases hok
    simp
  · simp only [extract_outline, if_neg hb] at hok
    rcases hscan : scanB blocks (analyze_fonts blocks) blocks [] [] with e | ⟨hs, seen⟩
    · rw [hscan] at hok
      exact absurd hok (by simp)
    · rw [hscan] at hok
      cases hok
      have hinv := scanB_ok blocks (analyze_fonts blocks) blocks [] [] [] (hs, seen) hscan
        (by simp) (by simp) (by simp) (by simp)
      simp only [List.nil_append] at hinv
      obtain ⟨hseen, hpw, hfa, hrej⟩ := hinv
      constructor
      · exact isortH_pairwise (firstPos blocks) hs
      · intro h hh
        have hh' : h ∈ hs := (isortH_perm (firstPos blocks) hs).mem_iff.mp hh
        obtain ⟨l, b0, rr, hdec, hacc, hfirst⟩ := hfa h hh'
        obtain ⟨htc, hcal, htext, hpage, hsize⟩ := hacc
        have hkeq : hKey h = bKey b0 := by
          simp [hKey, bKey, htext, hpage]
        have hbmem : b0 ∈ blocks := by
          rw [hdec]; exact List.mem_append_right _ (List.mem_cons_self _ _)
        obtain ⟨y, hy⟩ := findPos_firstPos_mem blocks (hKey h) ⟨b0, hbmem, hkeq.symm⟩
        have hocc := findPos_firstPos_some blocks (hKey h) y hy
        have hyr : yRec (firstPos blocks) h = y := by simp [yRec, hy]
        rw [hyr]
        exact hocc

/-- Claim C4: the document-level entry point converts every internal
error of the extraction core into the sentinel `{title: "Error",
outline: []}` and otherwise returns the core's result unchanged, so no
error passes the boundary; a document whose body font size is zero is a
concrete arithmetic-error instance that gets converted. -/
theorem extract_pdf_outline_no_raise :
    (∀ (blocks : List Block) (pc : Nat),
      (∃ e, extract_outline blocks pc = .error e ∧
          extract_pdf_outline blocks pc = ⟨kwError, [], none⟩) ∨
        (∃ r, extract_outline blocks pc = .ok r ∧
          extract_pdf_outline blocks pc = r)) ∧
      extract_outline zeroFontBlocks 1 = .error () ∧
      extract_pdf_outline zeroFontBlocks 1 = ⟨kwError, [], none⟩ := by
  refine ⟨fun blocks pc => ?_, rfl, rfl⟩
  rcases h : extract_outline blocks pc with e | r
  · exact Or.inl ⟨e, rfl, by simp [extract_pdf_outline, h, errResult]⟩
  · exact Or.inr ⟨r, rfl, by simp [extract_pdf_outline, h]⟩

/-- Claim C5: an empty span list yields the fixed placeholder title
"Empty Document", no entries, and a metadata page count equal to the
document's true page count. -/
theorem extract_outline_empty_input (pc : Nat) :
    extract_outline [] pc = .ok ⟨"Empty Document".toList, [], some pc⟩ := rfl

/-- Claim C1 (divergence evaluation): for `"1.2.3 Background and
Scope"` the numbered-section rule fires with confidence 90 but level 2,
not the level 3 the specification's dot count demands — Python's
`group(2)` retains only the last `.N` repetition, so the computed dot
count is always 1. -/
theorem detect_numbered_last_group_eval :
    detect_heading_patterns ("1.2.3 Background and Scope".toList) = (true, 2, 90) := rfl

/-- Claim C8: a text matched by the numbered-section rule is scored by
that rule — confidence 90 and the numbered level — even when the
selective all-caps rule matches it too; the first matching rule wins and
confidences never accumulate. -/
theorem detect_priority_numbered (text : Str) (lvl : Nat)
    (hnum : numberedRule (stripL text) = some lvl)
    (hcaps : allCapsRule (stripL text) = true) :
    detect_heading_patterns text = (true, lvl, 90) := by
  simp only [detect_heading_patterns, hnum]

/-- Witness for the pattern-priority claim at a concrete text matched by
both the numbered-section and all-caps rules. -/
theorem detect_priority_numbered_witness :
    numberedRule (stripL ("1 INTRODUCTION TO X".toList)) = some 1 ∧
    allCapsRule (stripL ("1 INTRODUCTION TO X".toList)) = true ∧
    detect_heading_patterns ("1 INTRODUCTION TO X".toList) = (true, 1, 90) :=
  ⟨rfl, rfl, detect_priority_numbered ("1 INTRODUCTION TO X".toList) 1 rfl rfl⟩

/-- Claim C6 counterexample: a month-name date span rendered large
(ratio 2.0), bold, in a non-body font at the left margin totals
90 + 60 + 25 + 15 + 10 − 80 = 120 ≥ 80 and IS accepted as a heading,
so the −80 penalty does not overwhelm every base score. -/
theorem month_date_accepted_counter :
    calculate_heading_likelihood [blkDate] faDate blkDate =
      .ok (true, some ("H1".toList), 120) ∧ ¬((120 : Int) < 80) :=
  ⟨rfl, by norm_num⟩

/-- Claim C9 counterexample: the specification scenario span
("1.2 System Overview", size 14, bold, body size 10) scores 165, not
exactly 145 — the +20 structure-keyword boost for "overview" fires
because the text occurs at most twice in the document. -/
theorem numbered_scenario_165_counter :
    calculate_heading_likelihood [blk9] fa9 blk9 =
      .ok (true, some ("H1".toList), 165) ∧ (165 : Int) ≠ 145 :=
  ⟨rfl, by norm_num⟩

/-- Claim C7 counterexample: "Visit www.example.com" contains the
marker "www." yet is not excluded — the exclusion regexes are applied
with `re.match`, anchored at the start of the text. -/
theorem excluded_marker_inside_counter :
    is_excluded_content ("Visit www.example.com".toList) 1 = false ∧
    containsSub kwWww (lowerL (stripL ("Visit www.example.com".toList))) = true :=
  ⟨rfl, rfl⟩

/-- Claim C6 (amended): for any span with text "15 March 2023" the
month-date penalty of −80 cuts the numbered-pattern base 90 down to 10,
so the span is rejected whenever the size/bold/font-name/position
bonuses contribute nothing (ratio < 1.2, not bold, body font name, not
left of x = 100); the penalty does not overwhelm every base score. -/
theorem month_date_plain_rejected (allB : List Block) (fa : FontAnalysis) (b : Block)
    (htext : b.text = "15 March 2023".toList)
    (hbody : 0 < fa.body_font_size)
    (hratio : b.font_size / fa.body_font_size < 6/5)
    (hbold : b.is_bold = false)
    (hfont : b.font_name = fa.body_font_name)
    (hx : 100 ≤ b.x_position) :
    calculate_heading_likelihood allB fa b = .ok (false, some ("H1".toList), 10) := by
  have hexc : is_excluded_content ("15 March 2023".toList) b.page = false := rfl
  have hdet : detect_heading_patterns ("15 March 2023".toList) = (true, 1, 90) := rfl
  have h32 : ¬ ((3:ℚ)/2 ≤ b.font_size / fa.body_font_size) := by
    intro hh
    have h65c : ((6:ℚ)/5 : ℚ) ≤ 3/2 := by norm_num
    linarith
  have h65 : ¬ ((6:ℚ)/5 ≤ b.font_size / fa.body_font_size) := by
    intro hh; linarith
  have hp1 : penaltyWordsL.any
      (fun w => containsSub w (lowerL ("15 March 2023".toList))) = false := rfl
  have hp2 : monthDateSearch (lowerL ("15 March 2023".toList)) = true := rfl
  have hp4 : listAuxMatch (lowerL ("15 March 2023".toList)) = false := rfl
  have hp5 : chapterLead (lowerL ("15 March 2023".toList)) = false := rfl
  have hp6 : structWordsL.any
      (fun w => containsSub w (lowerL ("15 March 2023".toList))) = false := rfl
  simp only [calculate_heading_likelihood, htext, hexc, hdet, hbold, hfont,
    hp1, hp2, hp4, hp5, hp6, hbody.ne', h32, h65, not_lt.mpr hx]
  norm_num [levelName]

/-- Witness for the amended month-date claim at a concrete plain span. -/
theorem month_date_plain_rejected_witness :
    blkDatePlain.text = "15 March 2023".toList ∧
    0 < faDate.body_font_size ∧
    blkDatePlain.font_size / faDate.body_font_size < 6/5 ∧
    blkDatePlain.is_bold = false ∧
    blkDatePlain.font_name = faDate.body_font_name ∧
    100 ≤ blkDatePlain.x_position ∧
    calculate_heading_likelihood [] faDate blkDatePlain =
      .ok (false, some ("H1".toList), 10) :=
  ⟨rfl, by norm_num [faDate], by norm_num [blkDatePlain, faDate], rfl, rfl,
   by norm_num [blkDatePlain],
   month_date_plain_rejected [] faDate blkDatePlain rfl (by norm_num [faDate])
     (by norm_num [blkDatePlain, faDate]) rfl rfl (by norm_num [blkDatePlain])⟩

/-- Claim C9 (amended): the specification's numbered-heading scenario
("1.2 System Overview", size 14 on body 10, bold, no font-name or
position bonus) is accepted as H1, but with confidence 165, not 145:
the +20 structure-keyword boost for "overview" also fires whenever the
normalized text occurs at most twice in the document. -/
theorem numbered_overview_165 (allB : List Block) (fa : FontAnalysis) (b : Block)
    (htext : b.text = "1.2 System Overview".toList)
    (hsize : b.font_size = 14)
    (hbody : fa.body_font_size = 10)
    (hbold : b.is_bold = true)
    (hfont : b.font_name = fa.body_font_name)
    (hx : 100 ≤ b.x_position)
    (hocc : (allB.filter (fun b' => stripL (lowerL b'.text) =
        stripL (lowerL ("1.2 System Overview".toList)))).length ≤ 2) :
    calculate_heading_likelihood allB fa b = .ok (true, some ("H1".toList), 165) := by
  have hexc : is_excluded_content ("1.2 System Overview".toList) b.page = false := rfl
  have hdet : detect_heading_patterns ("1.2 System Overview".toList) = (true, 2, 90) := rfl
  have h10 : ¬ ((10 : ℚ) = 0) := by norm_num
  have h32 : ¬ ((3:ℚ)/2 ≤ (14 : ℚ)/10) := by norm_num
  have h65 : ((6:ℚ)/5 ≤ (14 : ℚ)/10) := by norm_num
  have hp1 : penaltyWordsL.any
      (fun w => containsSub w (lowerL ("1.2 System Overview".toList))) = false := rfl
  have hp2 : monthDateSearch (lowerL ("1.2 System Overview".toList)) = false := rfl
  have hp4 : listAuxMatch (lowerL ("1.2 System Overview".toList)) = false := rfl
  have hp5 : chapterLead (lowerL ("1.2 System Overview".toList)) = false := rfl
  have hp6 : structWordsL.any
      (fun w => containsSub w (lowerL ("1.2 System Overview".toList))) = true := rfl
  simp only [calculate_heading_likelihood, htext, hexc, hdet, hsize, hbody, hbold, hfont,
    hp1, hp2, hp4, hp5, hp6, h10, h32, h65, not_lt.mpr hx, hocc]
  norm_num [levelName]

/-- Witness for the amended numbered-heading scenario at the concrete
specification span. -/
theorem numbered_overview_165_witness :
    blk9.text = "1.2 System Overview".toList ∧
    blk9.font_size = 14 ∧
    fa9.body_font_size = 10 ∧
    blk9.is_bold = true ∧
    blk9.font_name = fa9.body_font_name ∧
    100 ≤ blk9.x_position ∧
    ([blk9].filter (fun b' => stripL (lowerL b'.text) =
        stripL (lowerL ("1.2 System Overview".toList)))).length ≤ 2 ∧
    calculate_heading_likelihood [blk9] fa9 blk9 = .ok (true, some ("H1".toList), 165) :=
  ⟨rfl, rfl, rfl, rfl, rfl, by norm_num [blk9], by decide,
   numbered_overview_165 [blk9] fa9 blk9 rfl rfl rfl rfl rfl (by norm_num [blk9]) (by decide)⟩

/-- Claim C7 (amended): for a span whose trimmed text has length
between 3 and 150, `is_excluded_content` returns true whenever the
lowercased trimmed text BEGINS with one of the copyright/legal or
URL/domain markers, or with an `@domain` match of `@[\w\.-]+\.\w+`;
the anchored `re.match` means a marker strictly inside the text does
not exclude. -/
theorem excluded_marker_at_start (text : Str) (page : Nat)
    (hlen1 : 3 ≤ (stripL text).length)
    (hlen2 : (stripL text).length ≤ 150)
    (hm : (markerList.any (fun m => m.isPrefixOf (lowerL (stripL text)))
        || atDomainHit (lowerL (stripL text))) = true) :
    is_excluded_content text page = true := by
  have hguard : ¬ ((stripL text).length < 3 ∨ 150 < (stripL text).length) := by
    push_neg
    exact ⟨hlen1, hlen2⟩
  simp only [is_excluded_content]
  rw [if_neg hguard]
  rw [Bool.or_eq_true] at hm
  rcases hm with hmarker | hat
  · obtain ⟨m, hmem, hpre⟩ := List.any_eq_true.mp hmarker
    simp only [markerList, List.mem_cons, List.not_mem_nil, or_false] at hmem
    rcases hmem with rfl | rfl | rfl | rfl | rfl | rfl | rfl | rfl | rfl | rfl | rfl <;>
      simp [legalHit, urlHit, hpre]
  · simp [legalHit, urlHit, hat]

/-- Witness for the amended exclusion claim at two concrete spans: one
beginning with the literal "www." marker and one beginning with an
`@domain` match. -/
theorem excluded_marker_at_start_witness :
    (3 ≤ (stripL ("www.example.com".toList)).length ∧
      (stripL ("www.example.com".toList)).length ≤ 150 ∧
      (markerList.any (fun m => m.isPrefixOf (lowerL (stripL ("www.example.com".toList))))
        || atDomainHit (lowerL (stripL ("www.example.com".toList)))) = true ∧
      is_excluded_content ("www.example.com".toList) 1 = true) ∧
    (3 ≤ (stripL ("@example.com".toList)).length ∧
      (stripL ("@example.com".toList)).length ≤ 150 ∧
      (markerList.any (fun m => m.isPrefixOf (lowerL (stripL ("@example.com".toList))))
        || atDomainHit (lowerL (stripL ("@example.com".toList)))) = true ∧
      is_excluded_content ("@example.com".toList) 1 = true) :=
  ⟨⟨by decide, by decide, rfl,
    excluded_marker_at_start ("www.example.com".toList) 1 (by decide) (by decide) rfl⟩,
   ⟨by decide, by decide, rfl,
    excluded_marker_at_start ("@example.com".toList) 1 (by decide) (by decide) rfl⟩⟩

/-- Claim C10: when the span list is non-empty but holds no page-1
span, `extract_title` returns the fixed string "Untitled Document" — a
placeholder distinct from both the empty-document placeholder
("Empty Document") and the no-qualifying-candidate placeholder
("Document"). -/
theorem extract_title_no_first_page (blocks : List Block)
    (hne : blocks ≠ [])
    (hp : blocks.all (fun b => b.page ≠ 1) = true) :
    extract_title blocks = "Untitled Document".toList ∧
    ("Untitled Document".toList : Str) ≠ "Empty Document".toList ∧
    ("Untitled Document".toList : Str) ≠ "Document".toList := by
  have hfp : blocks.filter (fun b => b.page = 1) = [] := by
    rw [List.filter_eq_nil_iff]
    intro a ha
    simpa using (List.all_eq_true.mp hp) a ha
  refine ⟨?_, by decide, by decide⟩
  simp [extract_title, hfp, kwUntitled]

/-- Witness for the missing-first-page title claim at a one-span
page-2 document. -/
theorem extract_title_no_first_page_witness :
    ([blkP2] ≠ ([] : List Block)) ∧
    ([blkP2].all (fun b => b.page ≠ 1) = true) ∧
    (extract_title [blkP2] = "Untitled Document".toList ∧
      ("Untitled Document".toList : Str) ≠ "Empty Document".toList ∧
      ("Untitled Document".toList : Str) ≠ "Document".toList) :=
  ⟨by simp, by decide, extract_title_no_first_page [blkP2] (by simp) (by decide)⟩

/-- Witness for the dedup/first-wins claim at a concrete one-span
document with an accepted heading. -/
theorem extract_outline_dedup_first_witness :
    extract_outline [blkW] 2 = .ok resW ∧
    (List.Pairwise (fun a b => hKey a ≠ hKey b) resW.outline ∧
      ∀ h ∈ resW.outline, FirstAccepted [blkW] h) :=
  ⟨rfl, extract_outline_dedup_first [blkW] 2 resW rfl⟩

/-- Witness for the ordering claim at a concrete two-page document
whose spans arrive out of page order. -/
theorem extract_outline_ordering_witness :
    extract_outline [blkO1, blkO2] 3 = .ok resO ∧
    (List.Pairwise (hLE (firstPos [blkO1, blkO2])) resO.outline ∧
      ∀ h ∈ resO.outline,
        FirstOcc [blkO1, blkO2] (hKey h) (yRec (firstPos [blkO1, blkO2]) h)) :=
  ⟨rfl, extract_outline_ordering [blkO1, blkO2] 3 resO rfl⟩
